import Mathlib

/-!
Shallow embedding of the KV access and transaction orchestration layer of the
tikvadmin backend (src/backend-go).  Byte strings are lists of naturals, the
external TiKV cluster is modelled as an association list with the documented
get/put/delete/scan semantics (ascending lexicographic key order), and each Go
handler is translated into a pure Lean function over that model.  The repo
contains two generations of handlers: the ones in `main.go` (wired into the
router that `main()` actually serves) and the ones in `pkg/api/handlers.go`
(the `KVController`, whose router is never invoked by `main`).  Both are
embedded where a claim refers to them.
-/

namespace TikvAdmin

/-- A byte string: TiKV keys and values, one natural number per byte. -/
abbrev Bytes := List Nat

/-- Bytes of a Go string literal (all literals used here are ASCII, so one
`Char` is one byte). -/
def strB (s : String) : Bytes := s.data.map Char.toNat

/-- The external key-value store backing both client handles: an association
list from keys to values.  All operations keep keys unique. -/
abbrev Store := List (Bytes × Bytes)

/-- Keys currently present in a store. -/
def keysOf (s : Store) : List Bytes := s.map Prod.fst

/-- Modelled from the client protocol: `Delete` removes the entry with the
given key. -/
def rawDelete (s : Store) (k : Bytes) : Store := s.filter (fun p => !(p.1 == k))

/-- Modelled from the client protocol: `Put` overwrites the value stored at a
key. -/
def rawPut (s : Store) (k v : Bytes) : Store := (k, v) :: rawDelete s k

/-- Value stored at a key, if the key is present. -/
def lookupKey (s : Store) (k : Bytes) : Option Bytes :=
  (s.find? (fun p => p.1 == k)).map Prod.snd

/-- Modelled from the comment on `RawKv.Get` in pkg/tikv/dao.go: when the key
is absent, the raw client returns an empty byte slice and a nil error, so the
read is total and an absent key is reported as the empty value. -/
def rawGet (s : Store) (k : Bytes) : Bytes := (lookupKey s k).getD []

/-- Ordering of store entries by key, used to model the ascending key order of
TiKV scans and forward iterators. -/
def entryLe (p q : Bytes × Bytes) : Prop := p.1 ≤ q.1

instance : DecidableRel entryLe :=
  fun p q => inferInstanceAs (Decidable (p.1 ≤ q.1))

instance : IsTotal (Bytes × Bytes) entryLe := ⟨fun p q => le_total p.1 q.1⟩

instance : IsTrans (Bytes × Bytes) entryLe := ⟨fun _ _ _ h1 h2 => le_trans h1 h2⟩

/-- Store entries in ascending key order. -/
def sortByKey (s : Store) : Store := List.insertionSort entryLe s

/-- Modelled from the client protocol: a bounded scan returns the entries of
the store with keys in `[lo, hi)`, in ascending key order, capped at `limit`
pairs. -/
def scanPairs (s : Store) (lo hi : Bytes) (limit : Nat) : Store :=
  ((sortByKey s).filter (fun p => decide (lo ≤ p.1 ∧ p.1 < hi))).take limit

/-- The same scan returning parallel key and value slices, the shape
`rawkv.Client.Scan` has in Go. -/
def rawScan (s : Store) (lo hi : Bytes) (limit : Nat) : List Bytes × List Bytes :=
  ((scanPairs s lo hi limit).map Prod.fst, (scanPairs s lo hi limit).map Prod.snd)

/-- All entries with keys in `[lo, hi)` in ascending order: the stream a
forward transaction iterator walks. -/
def rangePairs (s : Store) (lo hi : Bytes) : Store :=
  (sortByKey s).filter (fun p => decide (lo ≤ p.1 ∧ p.1 < hi))

/-! ### Key namespacer -/

/-- pkg/tikv/dao.go: `TiKVWebKeyPrefix = []byte("tikv_web_")`, the fixed
isolation namespace for admin-managed keys. -/
def tikvWebKeyBytes : Bytes := strB "tikv_web_"

/-- pkg/tikv/dao.go `RawKv.makeKey` and `TxnKv.makeKey`: prepend the isolation
namespace to a logical key before it goes on the wire. -/
def makeKey (key : Bytes) : Bytes := tikvWebKeyBytes ++ key

/-- main.go `prefixedKey` (lines 105-107): despite its name it returns the
logical key unchanged, `[]byte(key)`. -/
def prefixedKey (key : String) : Bytes := strB key

/-- main.go `prefixedRange` (lines 109-119): a non-empty logical prefix scans
`[prefix, prefix ++ 0xFF)`; the empty prefix scans up to the four-byte 0xFF
sentinel. -/
def prefixedRange (pre : String) : Bytes × Bytes :=
  if pre ≠ "" then (strB pre, strB pre ++ [0xFF])
  else ([], [0xFF, 0xFF, 0xFF, 0xFF])

/-! ### Pagination over the direct-mode scan (main.go `scanRawKVs` / `handleScanKVs`) -/

/-- Body of the result-building loop of main.go `scanRawKVs`, structured on
the number of remaining iterations. -/
def buildPairsAux (keys values : List Bytes) (i : Nat) : Nat → Store
  | 0 => []
  | n + 1 => (keys.getD i [], values.getD i []) :: buildPairsAux keys values (i + 1) n

/-- The result-building loop of main.go `scanRawKVs` (lines 1055-1066):
`for i := start; i < end; i++` collect `(keys[i], values[i])`. -/
def buildPairs (keys values : List Bytes) (i e : Nat) : Store :=
  buildPairsAux keys values i (e - i)

/-- main.go `scanRawKVs` (lines 1014-1069), reached when the raw client is
live: request `offset + limit` pairs over the range of the logical prefix,
report the length of that capped scan as the total, and slice `[offset, end)`
out of it, clamping `end` to the number of returned keys and answering an
empty page when `offset` exceeds it. -/
def scanRawKVs (s : Store) (pre : String) (page limit : Nat) : Store × Nat :=
  let offset := (page - 1) * limit
  let r := prefixedRange pre
  let kv := rawScan s r.1 r.2 (offset + limit)
  if offset > kv.1.length then ([], kv.1.length)
  else
    let e := min (offset + limit) kv.1.length
    (buildPairs kv.1 kv.2 offset e, kv.1.length)

/-- The paginated payload built by main.go `handleScanKVs` (lines 265-275). -/
structure PageResult where
  data : Store
  total : Nat
  page : Nat
  limit : Nat
  totalPages : Nat
deriving DecidableEq

/-- main.go `handleScanKVs` (lines 221-285), rawkv branch with a live client:
delegate to `scanRawKVs` and report `totalPages = (total + limit - 1) / limit`. -/
def handleScanRaw (s : Store) (pre : String) (page limit : Nat) : PageResult :=
  let r := scanRawKVs s pre page limit
  { data := r.1, total := r.2, page := page, limit := limit,
    totalPages := (r.2 + limit - 1) / limit }

/-- Ceiling division exactly as the specification words it:
`totalPages = ceil(total / pageSize)`. -/
def ceilDivSpec (t l : Nat) : Nat := t / l + (if t % l = 0 then 0 else 1)

/-! ### Transactional scan (main.go `scanTxnKVs`) -/

/-- Calls made on a transaction handle. -/
inductive TxnEvent
  | beginTxn
  | commitTxn
  | rollbackTxn
deriving DecidableEq

/-- Failure injection for the transactional scan: whether `Begin` succeeds,
whether creating the iterator succeeds, and which `Next` call (if any) errors. -/
structure TxnScanWorld where
  beginOk : Bool
  iterOk : Bool
  nextErrAt : Option Nat

/-- The iterator walk of main.go `scanTxnKVs` (lines 1115-1141): count every
visited pair, skip the first `skip`, collect up to `limit`, stop early when the
page is full or a `Next` call errors (the Go code only logs that error and
still returns the collected page). -/
def txnWalkAcc (skip limit : Nat) (p : Bytes × Bytes) (current : Nat) (acc : Store) : Store :=
  if current ≥ skip ∧ acc.length < limit then acc ++ [p] else acc

def txnWalkCur (skip limit : Nat) (current : Nat) (acc : Store) : Nat :=
  if current ≥ skip ∧ acc.length < limit then current + 1
  else if current < skip then current + 1
  else current

def txnWalk (nextErrAt : Option Nat) (skip limit : Nat) :
    Store → Nat → Nat → Store → Nat → Store × Nat
  | [], _, total, acc, _ => (acc, total)
  | p :: rest, current, total, acc, nextIdx =>
    if (txnWalkAcc skip limit p current acc).length ≥ limit then
      (txnWalkAcc skip limit p current acc, total + 1)
    else if nextErrAt = some nextIdx then (txnWalkAcc skip limit p current acc, total + 1)
    else
      txnWalk nextErrAt skip limit rest (txnWalkCur skip limit current acc) (total + 1)
        (txnWalkAcc skip limit p current acc) (nextIdx + 1)

/-- main.go `scanTxnKVs` (lines 1072-1145): with a live transactional client,
begin a transaction, create a forward iterator over the range of the prefix,
walk it, and leave through the deferred `txn.Rollback()` on every path after a
successful `Begin`.  The function never calls `Commit`. -/
def scanTxnKVs (txnAvail : Bool) (w : TxnScanWorld) (s : Store) (pre : String)
    (page limit : Nat) : Option (Store × Nat) × List TxnEvent :=
  if ¬ txnAvail then (none, [])
  else if ¬ w.beginOk then (none, [])
  else if ¬ w.iterOk then (none, [.beginTxn, .rollbackTxn])
  else
    let r := prefixedRange pre
    let items := rangePairs s r.1 r.2
    (some (txnWalk w.nextErrAt ((page - 1) * limit) limit items 0 0 [] 0),
     [.beginTxn, .rollbackTxn])

/-! ### Batch orchestrator (main.go `handleBatchOperations`) -/

/-- One submitted batch operation (`Operation` in main.go): mode, key, and an
optional value whose absence marks the operation as a delete. -/
structure BatchOp where
  type : String
  key : String
  value : String
deriving DecidableEq

/-- One per-operation outcome (`BatchOperationResult` in main.go). -/
structure BatchResult where
  key : String
  operation : String
  success : Bool
  error : String
deriving DecidableEq

/-- Nil-checks performed by main.go before touching a client: the package-main
wrappers (`rawKvClient`, `txnClient`) and the pkg/tikv globals (`RawKVClient`,
`TxnKVClient`). -/
structure BatchClients where
  rawWrapperOk : Bool
  rawGlobalOk : Bool
  txnWrapperOk : Bool
  txnGlobalOk : Bool
deriving DecidableEq

/-- The two keyspaces, one per client mode. -/
structure BatchState where
  raw : Store
  txn : Store
deriving DecidableEq

/-- Keys and values as they are handed to a backend client handle. -/
inductive WireCall
  | rawPutCall (k v : Bytes)
  | rawGetCall (k : Bytes)
  | rawDeleteCall (k : Bytes)
  | txnGetCall (k : Bytes)
  | txnSetCall (k v : Bytes)
  | txnDeleteCall (k : Bytes)
deriving DecidableEq

/-- One iteration of main.go `handleBatchOperations` (lines 535-664): the
operation kind is derived from value presence; a delete is preceded by an
existence read and fails with "Key not found" when that read yields nothing;
transactional operations run in their own begin/commit unit and roll back on a
failed pre-check.  Returns the result entry, the state after the operation and
the wire calls issued.  (`Begin`, `Commit` and write errors of the external
client are not injected; the failures the handler itself produces are
modelled.) -/
def batchStep (cl : BatchClients) (st : BatchState) (op : BatchOp) :
    BatchResult × BatchState × List WireCall :=
  let opType := if op.value = "" then "delete" else "put"
  let base : BatchResult := { key := op.key, operation := opType, success := false, error := "" }
  if op.type = "rawkv" then
    if ¬ cl.rawWrapperOk then
      ({ base with error := "TiKV RawKV client not initialized" }, st, [])
    else if ¬ cl.rawGlobalOk then
      ({ base with error := "RawKV client is nil" }, st, [])
    else
      let k := prefixedKey op.key
      if opType = "put" then
        ({ base with success := true },
         { st with raw := rawPut st.raw k (strB op.value) },
         [.rawPutCall k (strB op.value)])
      else if rawGet st.raw k = [] then
        ({ base with error := "Key not found" }, st, [.rawGetCall k])
      else
        ({ base with success := true },
         { st with raw := rawDelete st.raw k },
         [.rawGetCall k, .rawDeleteCall k])
  else if op.type = "txn" then
    if ¬ cl.txnWrapperOk then
      ({ base with error := "TiKV TxnKV client not initialized" }, st, [])
    else if ¬ cl.txnGlobalOk then
      ({ base with error := "TxnKV client is nil" }, st, [])
    else
      let k := prefixedKey op.key
      if opType = "put" then
        ({ base with success := true },
         { st with txn := rawPut st.txn k (strB op.value) },
         [.txnSetCall k (strB op.value)])
      else if rawGet st.txn k = [] then
        ({ base with error := "Key not found" }, st, [.txnGetCall k])
      else
        ({ base with success := true },
         { st with txn := rawDelete st.txn k },
         [.txnGetCall k, .txnDeleteCall k])
  else
    ({ base with error := "Invalid operation type. Must be 'rawkv' or 'txn'" }, st, [])

/-- The sequential loop of main.go `handleBatchOperations`: one result entry is
appended per submitted operation, in submission order, and execution always
continues with the next operation. -/
def runBatch (cl : BatchClients) (st : BatchState) : List BatchOp → List BatchResult × BatchState
  | [] => ([], st)
  | op :: rest =>
    let r := batchStep cl st op
    let tl := runBatch cl r.2.1 rest
    (r.1 :: tl.1, tl.2)

/-- The success tally of main.go lines 666-674. -/
def successCount (rs : List BatchResult) : Nat := rs.countP (fun r => r.success)

/-- The failure tally of main.go lines 666-674. -/
def failureCount (rs : List BatchResult) : Nat := rs.countP (fun r => !r.success)

/-! ### Atomic transaction endpoint -/

/-- One operation of an `AtomicTransactionRequest`. -/
structure AtomicOp where
  type : String
  key : String
  value : String
deriving DecidableEq

/-- main.go `handleAtomicTransaction` (lines 928-935), the handler the router
served by `main()` binds to POST /api/kv/transaction: it replies success
without reading the request body or touching any client. -/
def handleAtomicTransactionMain (_ops : List AtomicOp) (st : Store) :
    Bool × String × Store × List TxnEvent :=
  (true, "Atomic transaction successful", st, [])

/-- Outcomes of pkg/api `AtomicTransaction`. -/
inductive AtomicOutcome
  | unavailable
  | beginFailed
  | validationFailed (key : String)
  | setFailed (key : String)
  | deleteFailed (key : String)
  | commitFailed
  | completed (operationCount : Nat)
deriving DecidableEq

/-- Failure injection for the atomic transaction: client liveness, `Begin`,
per-operation staging (`mutOk i` is whether the mutation staged for the i-th
operation succeeds) and `Commit`. -/
structure AtomicWorld where
  txnAvail : Bool
  beginOk : Bool
  mutOk : Nat → Bool
  commitOk : Bool

/-- A mutation staged on an open transaction. -/
inductive TxnMut
  | setMut (k v : Bytes)
  | delMut (k : Bytes)
deriving DecidableEq

/-- Effect of a staged mutation once the transaction commits. -/
def applyMut (s : Store) : TxnMut → Store
  | .setMut k v => rawPut s k v
  | .delMut k => rawDelete s k

/-- The operation loop of pkg/api `AtomicTransaction` (handlers.go lines
837-870): a put with an empty value aborts with the validation error; `Set` and
`Delete` go through the DAO (so keys are namespaced) onto the one open
transaction; the first staging failure aborts; operations of any other type
are skipped by the code. -/
def atomicLoop (w : AtomicWorld) : List AtomicOp → Nat → List TxnMut →
    Except AtomicOutcome (List TxnMut)
  | [], _, staged => .ok staged
  | op :: rest, i, staged =>
    if op.type = "put" then
      if op.value = "" then .error (.validationFailed op.key)
      else if ¬ w.mutOk i then .error (.setFailed op.key)
      else atomicLoop w rest (i + 1) (staged ++ [.setMut (makeKey (strB op.key)) (strB op.value)])
    else if op.type = "delete" then
      if ¬ w.mutOk i then .error (.deleteFailed op.key)
      else atomicLoop w rest (i + 1) (staged ++ [.delMut (makeKey (strB op.key))])
    else atomicLoop w rest (i + 1) staged

/-- pkg/api `AtomicTransaction` (handlers.go lines 806-895): one `Begin`, the
operation loop over that single transaction, `Rollback` on any abort before a
single final `Commit`.  Staged mutations become visible only through that
commit; on commit failure nothing is applied. -/
def atomicTransactionApi (w : AtomicWorld) (ops : List AtomicOp) (s : Store) :
    AtomicOutcome × Store × List TxnEvent :=
  if ¬ w.txnAvail then (.unavailable, s, [])
  else if ¬ w.beginOk then (.beginFailed, s, [])
  else
    match atomicLoop w ops 0 [] with
    | .error out => (out, s, [.beginTxn, .rollbackTxn])
    | .ok staged =>
      if w.commitOk then (.completed ops.length, staged.foldl applyMut s, [.beginTxn, .commitTxn])
      else (.commitFailed, s, [.beginTxn, .commitTxn])

/-! ### Single-key get and create -/

/-- main.go `handleGetKV` (lines 287-301), the handler the served router binds
to GET /api/kv/:key: it replies success with an empty value without consulting
any client.  Returned fields: key, value, success flag. -/
def handleGetKVMain (key : String) (_s : Store) : String × String × Bool :=
  (key, "", true)

/-- main.go `handleCreateKV` (lines 303-363), rawkv branch with a live client:
`tikv.RawKVClient.Put(ctx, prefixedKey(req.Key), []byte(req.Value))`, no
existence check. -/
def handleCreateKVMainRaw (s : Store) (key value : String) : Store :=
  rawPut s (prefixedKey key) (strB value)

/-- Outcome of the pkg/api create handlers. -/
inductive CreateOutcome
  | conflict
  | created
deriving DecidableEq

/-- pkg/api `CreateKV` (handlers.go lines 266-295), rawkv branch: read through
the DAO (namespaced key), answer 409 when a non-empty value exists, otherwise
put through the DAO. -/
def createKVApiRaw (s : Store) (key value : String) : CreateOutcome × Store :=
  if rawGet s (makeKey (strB key)) ≠ [] then (.conflict, s)
  else (.created, rawPut s (makeKey (strB key)) (strB value))

/-- pkg/api `CreateKV` (handlers.go lines 296-347), txn branch: begin, read the
namespaced key inside the transaction, roll back into a 409 on a non-empty
value, otherwise `Set` and commit. -/
def createKVApiTxn (s : Store) (key value : String) : CreateOutcome × Store :=
  if rawGet s (makeKey (strB key)) ≠ [] then (.conflict, s)
  else (.created, rawPut s (makeKey (strB key)) (strB value))

/-- Outcome of the pkg/api get handler. -/
inductive GetOutcome
  | notFound
  | found (value : Bytes)
deriving DecidableEq

/-- pkg/api `GetKV` (handlers.go lines 39-67), rawkv branch: read the
namespaced key through the DAO and report 404 whenever the returned slice is
empty. -/
def getKVApiRaw (s : Store) (key : String) : GetOutcome :=
  let result := rawGet s (makeKey (strB key))
  if result = [] then .notFound else .found result

/-- pkg/api `GetKV` (handlers.go lines 68-118), txn branch: begin, read the
namespaced key inside the transaction, commit, and report 404 whenever the
returned slice is empty.  (This read-only path commits rather than rolls
back.) -/
def getKVApiTxn (s : Store) (key : String) : GetOutcome × List TxnEvent :=
  let result := rawGet s (makeKey (strB key))
  (if result = [] then .notFound else .found result, [.beginTxn, .commitTxn])

/-! ### Client lifecycle and reconfiguration (pkg/tikv/client.go, main.go) -/

/-- The comma splitter of Go `strings.Split(raw, ",")`, over character lists. -/
def splitOnComma : List Char → List (List Char)
  | [] => [[]]
  | c :: rest =>
    let r := splitOnComma rest
    if c = ',' then [] :: r
    else (c :: r.headD []) :: r.tail

/-- Go `strings.TrimSpace`, restricted to the blanks that occur in endpoint
strings. -/
def trimSpaces (cs : List Char) : List Char :=
  ((cs.dropWhile (· = ' ')).reverse.dropWhile (· = ' ')).reverse

/-- The accumulation loop of main.go `parseEndpoints` (lines 121-138): trim
each comma-separated part, skip empties, reject any part without a colon,
reject an empty final list. -/
def parseEndpointsLoop : List (List Char) → List (List Char) → Option (List (List Char))
  | [], acc => if acc.isEmpty then none else some acc.reverse
  | p :: rest, acc =>
    let e := trimSpaces p
    if e.isEmpty then parseEndpointsLoop rest acc
    else if ¬ e.contains ':' then none
    else parseEndpointsLoop rest (e :: acc)

/-- main.go `parseEndpoints` (lines 121-138). -/
def parseEndpointsGo (raw : List Char) : Option (List (List Char)) :=
  parseEndpointsLoop (splitOnComma raw) []

/-- Process-wide client state: the two handle references (numbers standing for
distinct connection objects), the handles closed so far, and the endpoint set
reported by status queries. -/
structure ClientHandles where
  rawHandle : Option Nat
  txnHandle : Option Nat
  closedHandles : List Nat
  endpoints : List (List Char)
deriving DecidableEq

/-- Failure injection for reconfiguration: whether each open succeeds, and the
identities of the fresh handles. -/
structure ConnectWorld where
  rawOpenOk : Bool
  txnOpenOk : Bool
  newRawHandle : Nat
  newTxnHandle : Nat

/-- pkg/tikv/client.go `NewRawKvClient` (lines 24-43): on a successful open the
fresh handle immediately replaces the process-wide `RawKVClient` under the
mutex and the previous handle is closed.  On failure nothing changes. -/
def newRawKvClient (w : ConnectWorld) (st : ClientHandles) : Option ClientHandles :=
  if ¬ w.rawOpenOk then none
  else some { st with rawHandle := some w.newRawHandle,
                      closedHandles := st.closedHandles ++ st.rawHandle.toList }

/-- pkg/tikv/client.go `NewTxnClient` (lines 45-78): same immediate swap for
the transactional handle. -/
def newTxnClient (w : ConnectWorld) (st : ClientHandles) : Option ClientHandles :=
  if ¬ w.txnOpenOk then none
  else some { st with txnHandle := some w.newTxnHandle,
                      closedHandles := st.closedHandles ++ st.txnHandle.toList }

/-- main.go `InitializeTiKVClient` (lines 70-95): open the raw client first
(swapping on its own success), then the transactional client; report the first
failure. -/
def initializeTiKVClient (w : ConnectWorld) (st : ClientHandles) : Bool × ClientHandles :=
  match newRawKvClient w st with
  | none => (false, st)
  | some st1 =>
    match newTxnClient w st1 with
    | none => (false, st1)
    | some st2 => (true, st2)

/-- main.go `handleUpdateClusterEndpoints` (lines 970-1012): parse the CSV,
reinitialize the clients, and record the new endpoint set only when
initialization reported success. -/
def handleUpdateClusterEndpoints (w : ConnectWorld) (raw : List Char) (st : ClientHandles) :
    Bool × ClientHandles :=
  match parseEndpointsGo raw with
  | none => (false, st)
  | some eps =>
    let r := initializeTiKVClient w st
    if r.1 then (true, { r.2 with endpoints := eps })
    else (false, r.2)

/-! ### Bulk sweep deletion (main.go `handleDeleteAllKVs`) -/

/-- One scan of the rawkv sweep: up to 1000 pairs from the cursor to the
whole-namespace sentinel (main.go line 788). -/
def rawBatchPairs (s : Store) (cursor : Bytes) : Store :=
  scanPairs s cursor (prefixedRange "").2 1000

/-- main.go `handleDeleteAllKVs`, rawkv branch (lines 783-817): scan at most
1000 keys from the advancing cursor up to the whole-namespace sentinel, delete
each scanned key and count it, advance the cursor to the last scanned key with
a 0x00 byte appended, and stop when a scan comes back empty.  Fuel bounds the
number of loop iterations; `none` means the fuel ran out. -/
def deleteAllRawLoop : Nat → Store → Bytes → Nat → Option (Nat × Store)
  | 0, _, _, _ => none
  | fuel + 1, s, cursor, count =>
    if h : rawBatchPairs s cursor = [] then some (count, s)
    else
      deleteAllRawLoop fuel
        (((rawBatchPairs s cursor).map Prod.fst).foldl rawDelete s)
        (((rawBatchPairs s cursor).getLast h).1 ++ [0x00])
        (count + ((rawBatchPairs s cursor).map Prod.fst).length)

/-- Entry into the rawkv sweep: cursor starts at the range start (the empty
key).  One unit of fuel per store entry plus one final empty scan suffices. -/
def handleDeleteAllRaw (s : Store) : Option (Nat × Store) :=
  deleteAllRawLoop (s.length + 1) s (prefixedRange "").1 0

/-- One iterator batch of the transactional sweep: the keys of at most 200
pairs over the whole managed range (main.go lines 856-871). -/
def txnBatchKeys (s : Store) : List Bytes :=
  (scanPairs s (prefixedRange "").1 (prefixedRange "").2 200).map Prod.fst

/-- main.go `handleDeleteAllKVs`, txn branch (lines 829-905): each iteration
begins a fresh transaction, walks its iterator over the whole managed range
collecting at most 200 keys, deletes every collected key inside that same
transaction, commits, and stops when a batch is empty (rollback) or smaller
than 200.  The trace records each committed chunk with the store left by its
commit. -/
def deleteAllTxnLoop : Nat → Store → Nat → List (List Bytes × Store) →
    Option (Nat × Store × List (List Bytes × Store))
  | 0, _, _, _ => none
  | fuel + 1, s, count, trace =>
    if (txnBatchKeys s).isEmpty then some (count, s, trace)
    else if (txnBatchKeys s).length < 200 then
      some (count + (txnBatchKeys s).length, (txnBatchKeys s).foldl rawDelete s,
        trace ++ [(txnBatchKeys s, (txnBatchKeys s).foldl rawDelete s)])
    else
      deleteAllTxnLoop fuel ((txnBatchKeys s).foldl rawDelete s)
        (count + (txnBatchKeys s).length)
        (trace ++ [(txnBatchKeys s, (txnBatchKeys s).foldl rawDelete s)])

/-- Entry into the transactional sweep. -/
def handleDeleteAllTxn (s : Store) : Option (Nat × Store × List (List Bytes × Store)) :=
  deleteAllTxnLoop (s.length + 1) s 0 []

/-! ### pkg/api range scan with namespace stripping -/

/-- pkg/tikv/dao.go `RawKv.Scan` (lines 81-87): both bounds are wrapped with
the namespace before the client scan. -/
def daoScan (s : Store) (lo hi : Bytes) (limit : Nat) : List Bytes × List Bytes :=
  rawScan s (makeKey lo) (makeKey hi) limit

/-- pkg/api `ScanKVs` (handlers.go lines 149-198), rawkv branch, result
construction of lines 180-190: request `offset + limit` pairs through the DAO
and return each wire key with the `tikv_web_` namespace stripped, keeping only
wire keys strictly longer than the namespace. -/
def scanKVsApiRawItems (s : Store) (pre : String) (page limit : Nat) : Store :=
  let startKey := strB pre
  let endKey := if pre = "" then [0xFF, 0xFF, 0xFF, 0xFF] else strB pre ++ [0xFF]
  let offset := (page - 1) * limit
  let kv := daoScan s startKey endKey (offset + limit)
  ((kv.1.zip kv.2).filter (fun p => tikvWebKeyBytes.length < p.1.length)).map
    (fun p => (p.1.drop tikvWebKeyBytes.length, p.2))

/-! ### General lemmas about the store model -/

theorem sortByKey_perm (s : Store) : (sortByKey s).Perm s :=
  List.perm_insertionSort entryLe s

theorem sortByKey_sorted (s : Store) : List.Sorted entryLe (sortByKey s) :=
  List.sorted_insertionSort entryLe s

theorem mem_sortByKey {s : Store} {p : Bytes × Bytes} : p ∈ sortByKey s ↔ p ∈ s :=
  (sortByKey_perm s).mem_iff

theorem mem_rawDelete {s : Store} {k : Bytes} {p : Bytes × Bytes} :
    p ∈ rawDelete s k ↔ p ∈ s ∧ p.1 ≠ k := by
  simp [rawDelete, List.mem_filter]

theorem foldl_rawDelete_eq_filter :
    ∀ (ks : List Bytes) (s : Store),
      ks.foldl rawDelete s = s.filter (fun p => decide (p.1 ∉ ks)) := by
  intro ks
  induction ks with
  | nil => intro s; simp
  | cons k ks ih =>
    intro s
    have h1 : (k :: ks).foldl rawDelete s = ks.foldl rawDelete (rawDelete s k) := rfl
    rw [h1, ih, rawDelete, List.filter_filter]
    apply List.filter_congr
    intro p _
    by_cases h2 : p.1 = k <;> by_cases h3 : p.1 ∈ ks <;> simp [h2, h3]

theorem mem_foldl_rawDelete {ks : List Bytes} {s : Store} {p : Bytes × Bytes} :
    p ∈ ks.foldl rawDelete s ↔ p ∈ s ∧ p.1 ∉ ks := by
  rw [foldl_rawDelete_eq_filter]
  simp [List.mem_filter]

theorem lookupKey_rawPut_self (s : Store) (k v : Bytes) :
    lookupKey (rawPut s k v) k = some v := by
  simp [lookupKey, rawPut, List.find?]

theorem lookupKey_rawDelete_self (s : Store) (k : Bytes) :
    lookupKey (rawDelete s k) k = none := by
  have h : (rawDelete s k).find? (fun p => p.1 == k) = none := by
    rw [List.find?_eq_none]
    intro x hx
    have hx2 := (List.mem_filter.mp hx).2
    simpa using hx2
  simp [lookupKey, h]

/-- Lexicographically, the empty byte string is at or below every key. -/
theorem bytes_nil_le (b : Bytes) : ([] : Bytes) ≤ b := by
  cases b with
  | nil => exact le_refl _
  | cons x xs => exact le_of_lt List.Lex.nil

/-- Appending a 0x00 byte to a key keeps it at or below any strictly larger
key, so the sweep cursor `lastKey ++ 0x00` never jumps over a remaining key. -/
theorem append_zero_le_of_lt {a b : Bytes} (h : a < b) : a ++ [0] ≤ b := by
  have hlex : List.Lex (· < ·) a b := h
  clear h
  have hgoal : List.Lex (· < ·) (a ++ [0]) b ∨ a ++ [0] = b := by
    induction hlex with
    | nil =>
      rename_i x l
      cases l with
      | nil =>
        rcases Nat.eq_zero_or_pos x with hx | hx
        · right; simp [hx]
        · left; exact List.Lex.rel hx
      | cons y ys =>
        rcases Nat.eq_zero_or_pos x with hx | hx
        · left
          subst hx
          exact List.Lex.cons List.Lex.nil
        · left; exact List.Lex.rel hx
    | @rel c l1 d l2 hcd => left; exact List.Lex.rel hcd
    | @cons c l1 l2 htl ih =>
      rcases ih with h1 | h1
      · left; exact List.Lex.cons h1
      · right; rw [List.cons_append, h1]
  rcases hgoal with h1 | h1
  · exact le_of_lt h1
  · exact le_of_eq h1

/-- When every entry of the store lies inside the scanned range, a scan capped
at `n` returns exactly the first `n` entries in ascending key order. -/
theorem scanPairs_all (s : Store) (lo hi : Bytes) (n : Nat)
    (hall : ∀ p ∈ s, lo ≤ p.1 ∧ p.1 < hi) :
    scanPairs s lo hi n = (sortByKey s).take n := by
  unfold scanPairs
  congr 1
  rw [List.filter_eq_self]
  intro p hp
  exact decide_eq_true (hall p (mem_sortByKey.mp hp))

/-! ### Claim C9 -/

theorem txnWalk_length_le (ne : Option Nat) (skip limit : Nat) :
    ∀ (items : Store) (current total : Nat) (acc : Store) (idx : Nat),
      acc.length ≤ limit →
      (txnWalk ne skip limit items current total acc idx).1.length ≤ limit := by
  intro items
  induction items with
  | nil =>
    intro current total acc idx h
    simpa [txnWalk] using h
  | cons p rest ih =>
    intro current total acc idx h
    have hstep : (txnWalkAcc skip limit p current acc).length ≤ limit := by
      unfold txnWalkAcc
      split
      · next hc => simpa using hc.2
      · exact h
    rw [txnWalk]
    split
    · exact hstep
    · split
      · exact hstep
      · exact ih _ _ _ _ hstep

/-- Claim C9: for every range and limit, the transactional scan opens a new
read-only transaction, walks a forward iterator up to `limit` pairs, and always
ends the transaction with a rollback; it never commits, on success or on
error. -/
theorem claim_C9_txn_scan_rolls_back (txnAvail : Bool) (w : TxnScanWorld) (s : Store)
    (pre : String) (page limit : Nat) :
    TxnEvent.commitTxn ∉ (scanTxnKVs txnAvail w s pre page limit).2 ∧
    (scanTxnKVs txnAvail w s pre page limit).2.count TxnEvent.beginTxn ≤ 1 ∧
    (txnAvail = true → w.beginOk = true →
      (scanTxnKVs txnAvail w s pre page limit).2 =
        [TxnEvent.beginTxn, TxnEvent.rollbackTxn]) ∧
    (∀ res, (scanTxnKVs txnAvail w s pre page limit).1 = some res →
      res.1.length ≤ limit) := by
  obtain ⟨wb, wi, wn⟩ := w
  cases txnAvail with
  | false =>
    have hev : (scanTxnKVs false ⟨wb, wi, wn⟩ s pre page limit).2 = [] := rfl
    have hr : (scanTxnKVs false ⟨wb, wi, wn⟩ s pre page limit).1 = none := rfl
    refine ⟨by rw [hev]; decide, by rw [hev]; decide, ?_, ?_⟩
    · intro ha; exact absurd ha (by decide)
    · intro res hres; rw [hr] at hres; exact Option.noConfusion hres
  | true =>
    cases wb with
    | false =>
      have hev : (scanTxnKVs true ⟨false, wi, wn⟩ s pre page limit).2 = [] := rfl
      have hr : (scanTxnKVs true ⟨false, wi, wn⟩ s pre page limit).1 = none := rfl
      refine ⟨by rw [hev]; decide, by rw [hev]; decide, ?_, ?_⟩
      · intro _ hb; simp at hb
      · intro res hres; rw [hr] at hres; exact Option.noConfusion hres
    | true =>
      cases wi with
      | false =>
        have hev : (scanTxnKVs true ⟨true, false, wn⟩ s pre page limit).2 =
            [TxnEvent.beginTxn, TxnEvent.rollbackTxn] := rfl
        have hr : (scanTxnKVs true ⟨true, false, wn⟩ s pre page limit).1 = none := rfl
        refine ⟨by rw [hev]; decide, by rw [hev]; decide, fun _ _ => hev, ?_⟩
        intro res hres; rw [hr] at hres; exact Option.noConfusion hres
      | true =>
        have hev : (scanTxnKVs true ⟨true, true, wn⟩ s pre page limit).2 =
            [TxnEvent.beginTxn, TxnEvent.rollbackTxn] := rfl
        have hr : (scanTxnKVs true ⟨true, true, wn⟩ s pre page limit).1 =
            some (txnWalk wn ((page - 1) * limit) limit
              (rangePairs s (prefixedRange pre).1 (prefixedRange pre).2) 0 0 [] 0) := rfl
        refine ⟨by rw [hev]; decide, by rw [hev]; decide, fun _ _ => hev, ?_⟩
        intro res hres
        rw [hr] at hres
        have h2 := Option.some.inj hres
        rw [← h2]
        exact txnWalk_length_le wn _ limit _ 0 0 [] 0 (by simp)

theorem claim_C9_witness :
    (scanTxnKVs true ⟨true, true, none⟩ [([97], [49])] "" 1 2).2 =
      [TxnEvent.beginTxn, TxnEvent.rollbackTxn] :=
  (claim_C9_txn_scan_rolls_back true ⟨true, true, none⟩ [([97], [49])] "" 1 2).2.2.1 rfl rfl

/-! ### Claim C10 -/

/-- Claim C10: a key stored with an empty value is indistinguishable from an
absent key at the public interface.  The direct-mode backend read reports
absence as an empty value with no error, so the pkg/api get answers
"Key not found" (exactly as it does on the store without the key), and the
batch delete pre-check in main.go records the failure "Key not found", leaving
the state untouched. -/
theorem claim_C10_empty_value_indistinguishable (s : Store) (stb : BatchState)
    (cl : BatchClients) (k d : String)
    (hget : lookupKey s (makeKey (strB k)) = some [])
    (hbatch : lookupKey stb.raw (prefixedKey d) = some [])
    (hrw : cl.rawWrapperOk = true) (hrg : cl.rawGlobalOk = true) :
    (∀ (s2 : Store) (key : Bytes), lookupKey s2 key = none → rawGet s2 key = []) ∧
    getKVApiRaw s k = GetOutcome.notFound ∧
    getKVApiRaw s k = getKVApiRaw (rawDelete s (makeKey (strB k))) k ∧
    (batchStep cl stb ⟨"rawkv", d, ""⟩).1 =
      { key := d, operation := "delete", success := false, error := "Key not found" } ∧
    (batchStep cl stb ⟨"rawkv", d, ""⟩).2.1 = stb := by
  have habs : ∀ (s2 : Store) (key : Bytes), lookupKey s2 key = none → rawGet s2 key = [] := by
    intro s2 key h
    simp [rawGet, h]
  have hg1 : getKVApiRaw s k = GetOutcome.notFound := by
    simp [getKVApiRaw, rawGet, hget]
  have hg2 : getKVApiRaw (rawDelete s (makeKey (strB k))) k = GetOutcome.notFound := by
    simp [getKVApiRaw, rawGet, lookupKey_rawDelete_self]
  have hb0 : rawGet stb.raw (prefixedKey d) = [] := by simp [rawGet, hbatch]
  refine ⟨habs, hg1, hg1.trans hg2.symm, ?_, ?_⟩
  · simp [batchStep, hrw, hrg, hb0]
  · simp [batchStep, hrw, hrg, hb0]

theorem claim_C10_witness :
    getKVApiRaw (rawPut [] (makeKey (strB "k")) []) "k" = GetOutcome.notFound ∧
    (batchStep ⟨true, true, true, true⟩ ⟨rawPut [] (prefixedKey "d") [], []⟩
        ⟨"rawkv", "d", ""⟩).1 =
      { key := "d", operation := "delete", success := false, error := "Key not found" } :=
  ⟨(claim_C10_empty_value_indistinguishable (rawPut [] (makeKey (strB "k")) [])
      ⟨rawPut [] (prefixedKey "d") [], []⟩ ⟨true, true, true, true⟩ "k" "d"
      (by decide) (by decide) rfl rfl).2.1,
   (claim_C10_empty_value_indistinguishable (rawPut [] (makeKey (strB "k")) [])
      ⟨rawPut [] (prefixedKey "d") [], []⟩ ⟨true, true, true, true⟩ "k" "d"
      (by decide) (by decide) rfl rfl).2.2.2.1⟩

/-! ### Claim C1 -/

/-- An oracle under which the external client never fails: every staging and
the commit succeed. -/
def atomicAllOk : AtomicWorld :=
  { txnAvail := true, beginOk := true, mutOk := fun _ => true, commitOk := true }

/-- Claim C1 (code bug): the POST transaction endpoint served by `main()` is
main.go `handleAtomicTransaction`, a stub that reports success for every
operation list without opening a transaction, so a put with an empty value is
not rejected; pkg/api `AtomicTransaction` (never routed by `main()`) implements
the claimed behaviour, aborting that same request with the validation error
after a rollback and leaving the store untouched. -/
theorem claim_C1_transaction_endpoint_stub :
    handleAtomicTransactionMain [⟨"put", "k", ""⟩] [] =
      (true, "Atomic transaction successful", [], []) ∧
    (atomicTransactionApi atomicAllOk [⟨"put", "k", ""⟩] []).1 =
      AtomicOutcome.validationFailed "k" ∧
    (atomicTransactionApi atomicAllOk [⟨"put", "k", ""⟩] []).2.1 = [] ∧
    (atomicTransactionApi atomicAllOk [⟨"put", "k", ""⟩] []).2.2 =
      [TxnEvent.beginTxn, TxnEvent.rollbackTxn] :=
  ⟨rfl, by decide, by decide, by decide⟩

/-- Supporting fact for the intended semantics: pkg/api `AtomicTransaction`
opens at most one transaction, commits at most once, and leaves the store
untouched unless it reports completion. -/
theorem atomicTransactionApi_all_or_nothing (w : AtomicWorld) (ops : List AtomicOp)
    (s : Store) :
    (atomicTransactionApi w ops s).2.2.count TxnEvent.beginTxn ≤ 1 ∧
    (atomicTransactionApi w ops s).2.2.count TxnEvent.commitTxn ≤ 1 ∧
    ((atomicTransactionApi w ops s).1 ≠ AtomicOutcome.completed ops.length →
      (atomicTransactionApi w ops s).2.1 = s) := by
  unfold atomicTransactionApi
  by_cases ha : w.txnAvail = true
  · by_cases hb : w.beginOk = true
    · rcases hloop : atomicLoop w ops 0 [] with out | staged
      · simp [ha, hb, hloop]
      · by_cases hc : w.commitOk = true
        · simp [ha, hb, hloop, hc]
        · simp [ha, hb, hloop, hc]
    · simp [ha, hb]
  · simp [ha]

/-! ### Claim C2 -/

/-- A live pre-call state with both handles open. -/
def reconfigDemoState : ClientHandles :=
  { rawHandle := some 1, txnHandle := some 2, closedHandles := [],
    endpoints := [("a:1").data] }

/-- A reconfiguration in which the new direct-mode open succeeds and the new
transactional open fails. -/
def reconfigDemoWorld : ConnectWorld :=
  { rawOpenOk := true, txnOpenOk := false, newRawHandle := 3, newTxnHandle := 4 }

/-- Claim C2 fails on the code: when the direct-mode open succeeds and the
transactional open then fails, the reconfiguration call reports failure, yet
the direct handle has already been swapped (and the old one closed) by
`NewRawKvClient`, so the pre-call handles are not both still in effect. -/
theorem claim_C2_counterexample :
    (handleUpdateClusterEndpoints reconfigDemoWorld ("b:2").data reconfigDemoState).1
      = false ∧
    ¬ ((handleUpdateClusterEndpoints reconfigDemoWorld ("b:2").data
          reconfigDemoState).2.rawHandle = reconfigDemoState.rawHandle) := by
  decide

/-- Claim C2 as amended: a failed reconfiguration leaves the reported endpoint
set and the transactional handle unchanged, and leaves everything unchanged
when the direct-mode open fails; but when the direct open succeeds and the
transactional open fails, the call fails with the direct handle already
replaced by the fresh one. -/
theorem claim_C2_amended_no_partial_endpoint_swap (w : ConnectWorld) (raw : List Char)
    (st : ClientHandles) :
    ((handleUpdateClusterEndpoints w raw st).1 = false →
      (handleUpdateClusterEndpoints w raw st).2.endpoints = st.endpoints ∧
      (handleUpdateClusterEndpoints w raw st).2.txnHandle = st.txnHandle) ∧
    (w.rawOpenOk = false → (handleUpdateClusterEndpoints w raw st).2 = st) ∧
    (w.rawOpenOk = true → w.txnOpenOk = false → parseEndpointsGo raw ≠ none →
      (handleUpdateClusterEndpoints w raw st).1 = false ∧
      (handleUpdateClusterEndpoints w raw st).2.rawHandle = some w.newRawHandle) := by
  obtain ⟨wr, wt, nr, nt⟩ := w
  unfold handleUpdateClusterEndpoints initializeTiKVClient newRawKvClient newTxnClient
  rcases hpe : parseEndpointsGo raw with _ | eps <;>
    cases wr <;> cases wt <;> simp_all

theorem claim_C2_witness :
    (handleUpdateClusterEndpoints reconfigDemoWorld ("b:2").data reconfigDemoState).1
      = false ∧
    (handleUpdateClusterEndpoints reconfigDemoWorld ("b:2").data
        reconfigDemoState).2.rawHandle = some reconfigDemoWorld.newRawHandle :=
  (claim_C2_amended_no_partial_endpoint_swap reconfigDemoWorld ("b:2").data
    reconfigDemoState).2.2 rfl rfl (by decide)

/-! ### Claim C3 -/

/-- Claim C3 (code bug): on the endpoints served by `main()`, a rawkv
put("k","v") through `handleCreateKV` followed by get("k") through
`handleGetKV` answers the empty value, not "v", because `handleGetKV` is a
stub; the pkg/api controllers (never routed by `main()`) do return exactly the
stored value in both modes. -/
theorem claim_C3_put_get_roundtrip_broken :
    handleGetKVMain "k" (handleCreateKVMainRaw [] "k" "v") = ("k", "", true) ∧
    strB "v" ≠ [] ∧
    getKVApiRaw (createKVApiRaw [] "k" "v").2 "k" = GetOutcome.found (strB "v") ∧
    (getKVApiTxn (createKVApiTxn [] "k" "v").2 "k").1 = GetOutcome.found (strB "v") :=
  ⟨rfl, by decide, by decide, by decide⟩

/-- Supporting fact for the intended semantics: through the pkg/api
controllers, putting a fresh key with a non-empty value and reading it back
returns exactly that value, in each mode independently. -/
theorem apiCreateGet_roundtrip (s : Store) (k v : String) (hv : strB v ≠ [])
    (hfreshRaw : rawGet s (makeKey (strB k)) = []) :
    getKVApiRaw (createKVApiRaw s k v).2 k = GetOutcome.found (strB v) ∧
    (getKVApiTxn (createKVApiTxn s k v).2 k).1 = GetOutcome.found (strB v) := by
  have h1 : (createKVApiRaw s k v).2 = rawPut s (makeKey (strB k)) (strB v) := by
    simp [createKVApiRaw, hfreshRaw]
  have h2 : (createKVApiTxn s k v).2 = rawPut s (makeKey (strB k)) (strB v) := by
    simp [createKVApiTxn, hfreshRaw]
  have h3 : rawGet (rawPut s (makeKey (strB k)) (strB v)) (makeKey (strB k)) = strB v := by
    simp [rawGet, lookupKey_rawPut_self]
  constructor
  · rw [h1]; simp [getKVApiRaw, h3, hv]
  · rw [h2]; simp [getKVApiTxn, h3, hv]

/-! ### Claim C8 -/

/-- Claim C8 (code bug): the DAO (`makeKey`) does prepend the fixed isolation
namespace and the pkg/api scan strips it from wire keys on the way out, but
main.go's `prefixedKey` returns the logical key unchanged, so the scan and
batch paths served by `main()` put bare logical keys on the wire: the wire key
recorded for a rawkv batch put of "k" is "k" itself, not "tikv_web_k". -/
theorem claim_C8_namespace_not_applied :
    makeKey (strB "k") = tikvWebKeyBytes ++ strB "k" ∧
    prefixedKey "k" = strB "k" ∧
    prefixedKey "k" ≠ makeKey (strB "k") ∧
    (batchStep ⟨true, true, true, true⟩ ⟨[], []⟩ ⟨"rawkv", "k", "v"⟩).2.2 =
      [WireCall.rawPutCall (strB "k") (strB "v")] ∧
    scanKVsApiRawItems [(strB "tikv_web_a", strB "x")] "" 1 10 =
      [(strB "a", strB "x")] :=
  ⟨rfl, rfl, by decide, by decide, by decide⟩

/-! ### Claim C4 -/

theorem batchStep_key (cl : BatchClients) (st : BatchState) (op : BatchOp) :
    (batchStep cl st op).1.key = op.key := by
  unfold batchStep
  dsimp only
  repeat' split
  all_goals rfl

theorem batchStep_fail_fix (cl : BatchClients) (st : BatchState) (op : BatchOp)
    (h : (batchStep cl st op).1.success = false) : (batchStep cl st op).2.1 = st := by
  unfold batchStep at h ⊢
  dsimp only at h ⊢
  repeat' split at h
  all_goals simp_all

theorem runBatch_map_key (cl : BatchClients) :
    ∀ (ops : List BatchOp) (st : BatchState),
      (runBatch cl st ops).1.map (fun r => r.key) = ops.map (fun o => o.key) := by
  intro ops
  induction ops with
  | nil => intro st; rfl
  | cons op rest ih =>
    intro st
    show (batchStep cl st op).1.key :: _ = op.key :: _
    rw [batchStep_key, ih]

theorem runBatch_length (cl : BatchClients) :
    ∀ (ops : List BatchOp) (st : BatchState),
      (runBatch cl st ops).1.length = ops.length := by
  intro ops
  induction ops with
  | nil => intro st; rfl
  | cons op rest ih =>
    intro st
    show ((batchStep cl st op).1 :: _).length = _
    simp [ih]

theorem success_failure_split (rs : List BatchResult) :
    successCount rs + failureCount rs = rs.length := by
  unfold successCount failureCount
  induction rs with
  | nil => rfl
  | cons r rest ih =>
    rcases hs : r.success <;> simp [List.countP_cons, hs] <;> omega

/-- Claim C4: the batch endpoint produces exactly one result entry per
submitted operation in submission order; a failed operation leaves the state
untouched, so it never rolls back, blocks or alters the execution or the
reporting of any other operation; deleting a key whose existence read comes
back empty records the failure "Key not found" (in either mode); and
successCount plus failureCount equals the number of submitted operations. -/
theorem claim_C4_batch_independent_results (cl : BatchClients) (st : BatchState)
    (ops : List BatchOp) :
    (runBatch cl st ops).1.map (fun r => r.key) = ops.map (fun o => o.key) ∧
    (runBatch cl st ops).1.length = ops.length ∧
    (∀ op rest2, ops = op :: rest2 →
      (runBatch cl st ops).1 =
        (batchStep cl st op).1 :: (runBatch cl (batchStep cl st op).2.1 rest2).1 ∧
      ((batchStep cl st op).1.success = false →
        (runBatch cl st ops).1 =
          (batchStep cl st op).1 :: (runBatch cl st rest2).1)) ∧
    (∀ op : BatchOp, cl.rawWrapperOk = true → cl.rawGlobalOk = true →
      op.type = "rawkv" → op.value = "" →
      rawGet st.raw (prefixedKey op.key) = [] →
      (batchStep cl st op).1 =
        { key := op.key, operation := "delete", success := false,
          error := "Key not found" }) ∧
    (∀ op : BatchOp, cl.txnWrapperOk = true → cl.txnGlobalOk = true →
      op.type = "txn" → op.value = "" →
      rawGet st.txn (prefixedKey op.key) = [] →
      (batchStep cl st op).1 =
        { key := op.key, operation := "delete", success := false,
          error := "Key not found" }) ∧
    successCount (runBatch cl st ops).1 + failureCount (runBatch cl st ops).1 =
      ops.length := by
  refine ⟨runBatch_map_key cl ops st, runBatch_length cl ops st, ?_, ?_, ?_, ?_⟩
  · intro op rest2 hops
    subst hops
    constructor
    · rfl
    · intro hfail
      have hfix := batchStep_fail_fix cl st op hfail
      show (batchStep cl st op).1 :: (runBatch cl (batchStep cl st op).2.1 rest2).1 = _
      rw [hfix]
  · intro op hrw hrg htyp hval hget
    obtain ⟨t, k, v⟩ := op
    simp only at htyp hval
    subst htyp hval
    simp [batchStep, hrw, hrg, hget]
  · intro op htw htg htyp hval hget
    obtain ⟨t, k, v⟩ := op
    simp only at htyp hval
    subst htyp hval
    simp [batchStep, htw, htg, hget]
  · rw [success_failure_split, runBatch_length]

theorem claim_C4_witness :
    (runBatch ⟨true, true, true, true⟩ ⟨[], []⟩
        [⟨"rawkv", "a", "1"⟩, ⟨"rawkv", "z", ""⟩]).1.length = 2 ∧
    (batchStep ⟨true, true, true, true⟩ ⟨[], []⟩ ⟨"rawkv", "z", ""⟩).1 =
      { key := "z", operation := "delete", success := false,
        error := "Key not found" } :=
  ⟨(claim_C4_batch_independent_results ⟨true, true, true, true⟩ ⟨[], []⟩
      [⟨"rawkv", "a", "1"⟩, ⟨"rawkv", "z", ""⟩]).2.1,
   (claim_C4_batch_independent_results ⟨true, true, true, true⟩ ⟨[], []⟩
      [⟨"rawkv", "a", "1"⟩, ⟨"rawkv", "z", ""⟩]).2.2.2.1 ⟨"rawkv", "z", ""⟩
      rfl rfl rfl rfl (by decide)⟩

/-! ### Claim C5 -/

theorem buildPairsAux_zip :
    ∀ (n i : Nat) (P : Store), i + n ≤ P.length →
      buildPairsAux (P.map Prod.fst) (P.map Prod.snd) i n = (P.drop i).take n := by
  intro n
  induction n with
  | zero => intro i P _; rfl
  | succ n ih =>
    intro i P h
    have hi : i < P.length := by omega
    rw [buildPairsAux]
    have h1 : (P.map Prod.fst).getD i [] = (P[i]).1 := by
      rw [List.getD_eq_getElem?_getD, List.getElem?_map]
      simp [List.getElem?_eq_getElem hi]
    have h2 : (P.map Prod.snd).getD i [] = (P[i]).2 := by
      rw [List.getD_eq_getElem?_getD, List.getElem?_map]
      simp [List.getElem?_eq_getElem hi]
    rw [h1, h2, List.drop_eq_getElem_cons hi, List.take_succ_cons, ih (i + 1) P (by omega)]

theorem scanRawKVs_eq (s : Store) (pre : String) (page limit : Nat) :
    scanRawKVs s pre page limit =
      (((scanPairs s (prefixedRange pre).1 (prefixedRange pre).2
          ((page - 1) * limit + limit)).drop ((page - 1) * limit)).take limit,
       (scanPairs s (prefixedRange pre).1 (prefixedRange pre).2
          ((page - 1) * limit + limit)).length) := by
  unfold scanRawKVs rawScan
  dsimp only
  by_cases hcase :
      (page - 1) * limit >
        ((scanPairs s (prefixedRange pre).1 (prefixedRange pre).2
            ((page - 1) * limit + limit)).map Prod.fst).length
  · rw [if_pos hcase]
    rw [List.length_map] at hcase
    have hdrop :
        (scanPairs s (prefixedRange pre).1 (prefixedRange pre).2
            ((page - 1) * limit + limit)).drop ((page - 1) * limit) = [] :=
      List.drop_eq_nil_of_le (le_of_lt hcase)
    rw [hdrop, List.length_map, List.take_nil]
  · rw [if_neg hcase]
    rw [List.length_map] at hcase
    push_neg at hcase
    rw [List.length_map]
    unfold buildPairs
    set P := scanPairs s (prefixedRange pre).1 (prefixedRange pre).2
      ((page - 1) * limit + limit) with hP
    set off := (page - 1) * limit with hoff
    have he : min (off + limit) P.length - off ≤ P.length - off := by omega
    rw [buildPairsAux_zip (min (off + limit) P.length - off) off P (by omega)]
    have heq : (P.drop off).take (min (off + limit) P.length - off) =
        (P.drop off).take limit := by
      rw [List.take_eq_take]
      rw [List.length_drop]
      omega
    rw [heq]

theorem ceil_formula (t l : Nat) (hl : 1 ≤ l) : (t + l - 1) / l = ceilDivSpec t l := by
  unfold ceilDivSpec
  cases t with
  | zero =>
    have h0 : (l - 1) / l = 0 := Nat.div_eq_of_lt (by omega)
    simp [h0]
  | succ n =>
    have h1 : n + 1 + l - 1 = n + l := by omega
    rw [h1, Nat.add_div_right n (by omega), Nat.succ_div]
    have h2 : (l ∣ n + 1) ↔ ((n + 1) % l = 0) := Nat.dvd_iff_mod_eq_zero
    by_cases hd : l ∣ n + 1
    · rw [if_pos hd, if_pos (h2.mp hd)]
    · rw [if_neg hd, if_neg (fun hmod => hd (h2.mpr hmod))]

/-- Claim C5: the rawkv scan endpoint requests `offset + pageSize` items with
`offset = (pageNumber - 1) * pageSize`, returns the slice
`[offset, offset + pageSize)` of the ordered capped scan output (clamped to the
available length), reports `total` as the number of pairs observed during that
same bounded scan, reports `totalPages = ceil(total / pageSize)`, and answers
an empty page when the offset lies beyond the observed results. -/
theorem claim_C5_pagination (s : Store) (pre : String) (page limit : Nat)
    (_hp : 1 ≤ page) (hl : 1 ≤ limit) (_hcap : limit ≤ 100) :
    (handleScanRaw s pre page limit).data =
      ((scanPairs s (prefixedRange pre).1 (prefixedRange pre).2
          ((page - 1) * limit + limit)).drop ((page - 1) * limit)).take limit ∧
    (handleScanRaw s pre page limit).total =
      (scanPairs s (prefixedRange pre).1 (prefixedRange pre).2
          ((page - 1) * limit + limit)).length ∧
    (handleScanRaw s pre page limit).totalPages =
      ceilDivSpec (handleScanRaw s pre page limit).total limit ∧
    ((scanPairs s (prefixedRange pre).1 (prefixedRange pre).2
          ((page - 1) * limit + limit)).length < (page - 1) * limit →
      (handleScanRaw s pre page limit).data = []) := by
  have he := scanRawKVs_eq s pre page limit
  have hdata : (handleScanRaw s pre page limit).data = (scanRawKVs s pre page limit).1 := rfl
  have htot : (handleScanRaw s pre page limit).total = (scanRawKVs s pre page limit).2 := rfl
  have htp : (handleScanRaw s pre page limit).totalPages =
      ((scanRawKVs s pre page limit).2 + limit - 1) / limit := rfl
  refine ⟨?_, ?_, ?_, ?_⟩
  · rw [hdata, he]
  · rw [htot, he]
  · rw [htp, htot]
    exact ceil_formula ((scanRawKVs s pre page limit).2) limit hl
  · intro hlt
    rw [hdata, he]
    dsimp only
    rw [List.drop_eq_nil_of_le (le_of_lt hlt), List.take_nil]

theorem claim_C5_witness :
    (handleScanRaw [([97], [49]), ([98], [50]), ([99], [51])] "" 2 2).data =
      ((scanPairs [([97], [49]), ([98], [50]), ([99], [51])] (prefixedRange "").1
          (prefixedRange "").2 ((2 - 1) * 2 + 2)).drop ((2 - 1) * 2)).take 2 ∧
    (handleScanRaw [([97], [49]), ([98], [50]), ([99], [51])] "" 2 2).totalPages =
      ceilDivSpec (handleScanRaw [([97], [49]), ([98], [50]), ([99], [51])] "" 2 2).total 2 :=
  ⟨(claim_C5_pagination [([97], [49]), ([98], [50]), ([99], [51])] "" 2 2
      (by decide) (by decide) (by decide)).1,
   (claim_C5_pagination [([97], [49]), ([98], [50]), ([99], [51])] "" 2 2
      (by decide) (by decide) (by decide)).2.2.1⟩

/-! ### Claim C6 -/

theorem sortByKey_keys_nodup {s : Store} (hnd : (keysOf s).Nodup) :
    ((sortByKey s).map Prod.fst).Nodup :=
  (((sortByKey_perm s).map Prod.fst).symm).nodup hnd

/-- Deleting every key of one scanned batch leaves (a permutation of) the
entries of the store past the first `n` positions of its sorted order. -/
theorem sweep_delete_batch (s : Store) (lo hi : Bytes) (n : Nat)
    (hall : ∀ p ∈ s, lo ≤ p.1 ∧ p.1 < hi) (hnd : (keysOf s).Nodup) :
    (((scanPairs s lo hi n).map Prod.fst).foldl rawDelete s).Perm
      ((sortByKey s).drop n) := by
  rw [foldl_rawDelete_eq_filter, scanPairs_all s lo hi n hall]
  have hAB : (sortByKey s).take n ++ (sortByKey s).drop n = sortByKey s :=
    List.take_append_drop n (sortByKey s)
  have hndk : ((sortByKey s).map Prod.fst).Nodup := sortByKey_keys_nodup hnd
  have hdisj : (((sortByKey s).take n).map Prod.fst).Disjoint
      (((sortByKey s).drop n).map Prod.fst) := by
    rw [← hAB, List.map_append, List.nodup_append] at hndk
    exact hndk.2.2
  have h1 : ((sortByKey s).take n).filter
      (fun p => decide (p.1 ∉ ((sortByKey s).take n).map Prod.fst)) = [] := by
    rw [List.filter_eq_nil_iff]
    intro p hp
    simp only [decide_eq_true_eq, not_not]
    exact List.mem_map_of_mem Prod.fst hp
  have h2 : ((sortByKey s).drop n).filter
      (fun p => decide (p.1 ∉ ((sortByKey s).take n).map Prod.fst)) =
      (sortByKey s).drop n := by
    rw [List.filter_eq_self]
    intro p hp
    simp only [decide_eq_true_eq]
    exact fun hmem => hdisj hmem (List.mem_map_of_mem Prod.fst hp)
  have hsplit : (sortByKey s).filter
      (fun p => decide (p.1 ∉ ((sortByKey s).take n).map Prod.fst)) =
      (sortByKey s).drop n := by
    calc ((sortByKey s).filter
            (fun p => decide (p.1 ∉ ((sortByKey s).take n).map Prod.fst)))
        = ((sortByKey s).take n ++ (sortByKey s).drop n).filter
            (fun p => decide (p.1 ∉ ((sortByKey s).take n).map Prod.fst)) := by
          rw [hAB]
      _ = (sortByKey s).drop n := by
          rw [List.filter_append, h1, h2, List.nil_append]
  have hperm : (s.filter
        (fun p => decide (p.1 ∉ ((sortByKey s).take n).map Prod.fst))).Perm
      ((sortByKey s).filter
        (fun p => decide (p.1 ∉ ((sortByKey s).take n).map Prod.fst))) :=
    (sortByKey_perm s).symm.filter _
  rw [hsplit] at hperm
  exact hperm

theorem deleteAllRawLoop_correct :
    ∀ (fuel : Nat) (s : Store) (cursor : Bytes) (count : Nat),
      s.length < fuel →
      (keysOf s).Nodup →
      (∀ p ∈ s, p.1 < (prefixedRange "").2) →
      (∀ p ∈ s, cursor ≤ p.1) →
      deleteAllRawLoop fuel s cursor count = some (count + s.length, []) := by
  intro fuel
  induction fuel with
  | zero =>
    intro s cursor count h _ _ _
    omega
  | succ fuel ih =>
    intro s cursor count hfuel hnd hlt hcur
    have hall : ∀ p ∈ s, cursor ≤ p.1 ∧ p.1 < (prefixedRange "").2 :=
      fun p hp => ⟨hcur p hp, hlt p hp⟩
    have hbatch : rawBatchPairs s cursor = (sortByKey s).take 1000 :=
      scanPairs_all s cursor (prefixedRange "").2 1000 hall
    rw [deleteAllRawLoop]
    split
    · next hpairs =>
      rw [hbatch] at hpairs
      have hs : s = [] := by
        rcases List.take_eq_nil_iff.mp hpairs with h | h
        · omega
        · have hp2 := sortByKey_perm s
          rw [h] at hp2
          exact (hp2.symm).eq_nil
      subst hs
      simp
    · next hpairs =>
      have hperm1 : (((rawBatchPairs s cursor).map Prod.fst).foldl rawDelete s).Perm
          ((sortByKey s).drop 1000) :=
        sweep_delete_batch s cursor (prefixedRange "").2 1000 hall hnd
      have hmem1 : ∀ p : Bytes × Bytes,
          p ∈ ((rawBatchPairs s cursor).map Prod.fst).foldl rawDelete s ↔
            p ∈ s ∧ p.1 ∉ (rawBatchPairs s cursor).map Prod.fst :=
        fun p => mem_foldl_rawDelete
      have hsub : (((rawBatchPairs s cursor).map Prod.fst).foldl rawDelete s).Sublist s := by
        rw [foldl_rawDelete_eq_filter]
        exact List.filter_sublist s
      have hsortlen : (sortByKey s).length = s.length := (sortByKey_perm s).length_eq
      have hABlen : (rawBatchPairs s cursor).length +
          ((sortByKey s).drop 1000).length = s.length := by
        rw [hbatch, List.length_take, List.length_drop]
        omega
      have hApos : 0 < (rawBatchPairs s cursor).length := List.length_pos.mpr hpairs
      have hs1len : (((rawBatchPairs s cursor).map Prod.fst).foldl rawDelete s).length =
          ((sortByKey s).drop 1000).length := hperm1.length_eq
      have hsort2 : List.Sorted entryLe
          ((sortByKey s).take 1000 ++ (sortByKey s).drop 1000) := by
        rw [List.take_append_drop]
        exact sortByKey_sorted s
      have hrel := (List.pairwise_append.mp hsort2).2.2
      have hlastA : (rawBatchPairs s cursor).getLast hpairs ∈ (sortByKey s).take 1000 := by
        rw [← hbatch]
        exact List.getLast_mem hpairs
      have hlastkeys : ((rawBatchPairs s cursor).getLast hpairs).1 ∈
          (rawBatchPairs s cursor).map Prod.fst :=
        List.mem_map_of_mem Prod.fst (List.getLast_mem hpairs)
      rw [ih (((rawBatchPairs s cursor).map Prod.fst).foldl rawDelete s)
        (((rawBatchPairs s cursor).getLast hpairs).1 ++ [0x00])
        (count + ((rawBatchPairs s cursor).map Prod.fst).length)
        (by rw [hs1len]; omega)
        (by
          have := (hsub.map Prod.fst).nodup hnd
          exact this)
        (by
          intro p hp
          exact hlt p ((hmem1 p).mp hp).1)
        (by
          intro p hp
          obtain ⟨hps, hpk⟩ := (hmem1 p).mp hp
          have hpsorted : p ∈ (sortByKey s).take 1000 ++ (sortByKey s).drop 1000 := by
            rw [List.take_append_drop]
            exact mem_sortByKey.mpr hps
          rcases List.mem_append.mp hpsorted with hpA | hpB
          · exfalso
            apply hpk
            rw [hbatch]
            exact List.mem_map_of_mem Prod.fst hpA
          · have hle : ((rawBatchPairs s cursor).getLast hpairs).1 ≤ p.1 :=
              hrel ((rawBatchPairs s cursor).getLast hpairs) hlastA p hpB
            have hne : ((rawBatchPairs s cursor).getLast hpairs).1 ≠ p.1 :=
              fun he => hpk (he ▸ hlastkeys)
            exact append_zero_le_of_lt (lt_of_le_of_ne hle hne))]
      have harith : count + ((rawBatchPairs s cursor).map Prod.fst).length +
          (((rawBatchPairs s cursor).map Prod.fst).foldl rawDelete s).length =
          count + s.length := by
        rw [hs1len, List.length_map]
        omega
      rw [harith]

/-- Claim C6: the direct-mode sweep repeatedly scans up to 1000 keys from the
advancing cursor (last deleted key with a 0x00 byte appended), deletes every
key of each batch, stops when a scan comes back empty, and over any finite
keyspace of M managed keys (distinct keys below the whole-namespace sentinel)
it reports deletedCount = M and leaves a store on which a scan of the whole
managed namespace returns zero keys. -/
theorem claim_C6_raw_sweep_complete (s : Store)
    (hnd : (keysOf s).Nodup)
    (hlt : ∀ p ∈ s, p.1 < (prefixedRange "").2) :
    ∃ s2, handleDeleteAllRaw s = some (s.length, s2) ∧
      (∀ n, scanPairs s2 (prefixedRange "").1 (prefixedRange "").2 n = []) := by
  refine ⟨[], ?_, fun n => by simp [scanPairs, sortByKey]⟩
  have h := deleteAllRawLoop_correct (s.length + 1) s (prefixedRange "").1 0
    (by omega) hnd hlt (fun p _ => bytes_nil_le p.1)
  unfold handleDeleteAllRaw
  rw [h]
  simp

theorem claim_C6_witness :
    ∃ s2, handleDeleteAllRaw [([97], [49]), ([98], [50])] = some (2, s2) ∧
      (∀ n, scanPairs s2 (prefixedRange "").1 (prefixedRange "").2 n = []) :=
  claim_C6_raw_sweep_complete [([97], [49]), ([98], [50])] (by decide) (by decide)

/-! ### Claim C7 -/

theorem txnBatchKeys_le (s : Store) : (txnBatchKeys s).length ≤ 200 := by
  unfold txnBatchKeys scanPairs
  rw [List.length_map, List.length_take]
  omega

theorem deleteAllTxnLoop_correct :
    ∀ (fuel : Nat) (s : Store) (count : Nat) (trace : List (List Bytes × Store)),
      s.length < fuel →
      (keysOf s).Nodup →
      (∀ p ∈ s, p.1 < (prefixedRange "").2) →
      ∃ tr, deleteAllTxnLoop fuel s count trace =
          some (count + s.length, [], trace ++ tr) ∧
        (∀ e ∈ tr, e.1.length ≤ 200) ∧
        (∀ e ∈ tr, ∀ k ∈ e.1, k ∉ keysOf e.2) ∧
        (∀ e ∈ tr, ∀ p ∈ e.2, p ∈ s) ∧
        tr.Pairwise (fun a b => ∀ p ∈ b.2, p ∈ a.2) := by
  intro fuel
  induction fuel with
  | zero =>
    intro s count trace h _ _
    omega
  | succ fuel ih =>
    intro s count trace hfuel hnd hlt
    have hall : ∀ p ∈ s, (prefixedRange "").1 ≤ p.1 ∧ p.1 < (prefixedRange "").2 :=
      fun p hp => ⟨bytes_nil_le p.1, hlt p hp⟩
    have hbatch : scanPairs s (prefixedRange "").1 (prefixedRange "").2 200 =
        (sortByKey s).take 200 :=
      scanPairs_all s (prefixedRange "").1 (prefixedRange "").2 200 hall
    have hkeys : txnBatchKeys s = ((sortByKey s).take 200).map Prod.fst := by
      unfold txnBatchKeys
      rw [hbatch]
    have hmem1 : ∀ p : Bytes × Bytes,
        p ∈ (txnBatchKeys s).foldl rawDelete s ↔ p ∈ s ∧ p.1 ∉ txnBatchKeys s :=
      fun p => mem_foldl_rawDelete
    rw [deleteAllTxnLoop]
    by_cases hempty : (txnBatchKeys s).isEmpty
    · rw [if_pos hempty]
      have hknil : txnBatchKeys s = [] := List.isEmpty_iff.mp hempty
      rw [hkeys] at hknil
      have htake : (sortByKey s).take 200 = [] := List.map_eq_nil_iff.mp hknil
      have hs : s = [] := by
        rcases List.take_eq_nil_iff.mp htake with h | h
        · omega
        · have hp2 := sortByKey_perm s
          rw [h] at hp2
          exact (hp2.symm).eq_nil
      subst hs
      exact ⟨[], by simp, by simp, by simp, by simp, by simp⟩
    · rw [if_neg hempty]
      have hperm1 : ((txnBatchKeys s).foldl rawDelete s).Perm ((sortByKey s).drop 200) :=
        sweep_delete_batch s (prefixedRange "").1 (prefixedRange "").2 200 hall hnd
      have hsortlen : (sortByKey s).length = s.length := (sortByKey_perm s).length_eq
      have hklen : (txnBatchKeys s).length = min 200 s.length := by
        rw [hkeys, List.length_map, List.length_take, hsortlen]
      by_cases hsmall : (txnBatchKeys s).length < 200
      · rw [if_pos hsmall]
        have hslen : s.length < 200 := by omega
        have htakeall : (sortByKey s).take 200 = sortByKey s :=
          List.take_of_length_le (by omega)
        have hkeysall : txnBatchKeys s = (sortByKey s).map Prod.fst := by
          rw [hkeys, htakeall]
        have hs1nil : (txnBatchKeys s).foldl rawDelete s = [] := by
          rw [foldl_rawDelete_eq_filter, List.filter_eq_nil_iff]
          intro p hp
          simp only [decide_eq_true_eq, not_not]
          rw [hkeysall]
          exact List.mem_map_of_mem Prod.fst (mem_sortByKey.mpr hp)
        have hkcount : (txnBatchKeys s).length = s.length := by omega
        refine ⟨[(txnBatchKeys s, (txnBatchKeys s).foldl rawDelete s)], ?_, ?_, ?_, ?_, ?_⟩
        · rw [hs1nil, hkcount]
        · intro e he
          rw [List.mem_singleton] at he
          subst he
          exact le_of_lt hsmall
        · intro e he
          rw [List.mem_singleton] at he
          subst he
          intro k _ hk2
          rw [hs1nil] at hk2
          simp [keysOf] at hk2
        · intro e he
          rw [List.mem_singleton] at he
          subst he
          intro p hp
          rw [hs1nil] at hp
          simp at hp
        · exact List.pairwise_singleton _ _
      · rw [if_neg hsmall]
        have hs1len : ((txnBatchKeys s).foldl rawDelete s).length =
            ((sortByKey s).drop 200).length := hperm1.length_eq
        have hdroplen : ((sortByKey s).drop 200).length = s.length - 200 := by
          rw [List.length_drop, hsortlen]
        have hsub : ((txnBatchKeys s).foldl rawDelete s).Sublist s := by
          rw [foldl_rawDelete_eq_filter]
          exact List.filter_sublist s
        obtain ⟨tr2, heq, hp1, hp2, hp3, hp4⟩ :=
          ih ((txnBatchKeys s).foldl rawDelete s)
            (count + (txnBatchKeys s).length)
            (trace ++ [(txnBatchKeys s, (txnBatchKeys s).foldl rawDelete s)])
            (by omega)
            ((hsub.map Prod.fst).nodup hnd)
            (fun p hp => hlt p ((hmem1 p).mp hp).1)
        refine ⟨(txnBatchKeys s, (txnBatchKeys s).foldl rawDelete s) :: tr2, ?_, ?_, ?_, ?_, ?_⟩
        · rw [heq, List.append_assoc, List.singleton_append]
          have : count + (txnBatchKeys s).length +
              ((txnBatchKeys s).foldl rawDelete s).length = count + s.length := by
            rw [hs1len, hdroplen]
            omega
          rw [this]
        · intro e he
          rcases List.mem_cons.mp he with he1 | he1
          · subst he1
            exact txnBatchKeys_le s
          · exact hp1 e he1
        · intro e he
          rcases List.mem_cons.mp he with he1 | he1
          · subst he1
            intro k hk hk2
            obtain ⟨p, hpmem, hpk⟩ := List.mem_map.mp hk2
            exact ((hmem1 p).mp hpmem).2 (hpk ▸ hk)
          · exact hp2 e he1
        · intro e he
          rcases List.mem_cons.mp he with he1 | he1
          · subst he1
            exact fun p hp => ((hmem1 p).mp hp).1
          · exact fun p hp => ((hmem1 p).mp (hp3 e he1 p hp)).1
        · rw [List.pairwise_cons]
          exact ⟨fun b hb p hp => hp3 b hb p hp, hp4⟩

/-- Claim C7: the transactional sweep repeatedly opens a short-lived
transaction, collects at most 200 keys, deletes all of them within that same
transaction and commits it, terminating when a batch yields zero or fewer than
200 keys; no committed chunk stages more than 200 deletions, each chunk's keys
are gone from the store its commit leaves behind, and they stay gone in every
store a later chunk's commit leaves behind (durability of committed chunks). -/
theorem claim_C7_txn_sweep_bounded_chunks (s : Store)
    (hnd : (keysOf s).Nodup)
    (hlt : ∀ p ∈ s, p.1 < (prefixedRange "").2) :
    ∃ tr, handleDeleteAllTxn s = some (s.length, [], tr) ∧
      (∀ e ∈ tr, e.1.length ≤ 200) ∧
      (∀ e ∈ tr, ∀ k ∈ e.1, k ∉ keysOf e.2) ∧
      tr.Pairwise (fun a b => ∀ k ∈ a.1, k ∉ keysOf b.2) := by
  obtain ⟨tr, heq, hp1, hp2, hp3, hp4⟩ :=
    deleteAllTxnLoop_correct (s.length + 1) s 0 [] (by omega) hnd hlt
  refine ⟨tr, ?_, hp1, hp2, ?_⟩
  · unfold handleDeleteAllTxn
    rw [heq]
    simp
  · refine hp4.imp_of_mem ?_
    intro a b ha _ hab
    intro k hk hk2
    obtain ⟨p, hpmem, hpk⟩ := List.mem_map.mp hk2
    exact hp2 a ha k hk (hpk ▸ List.mem_map_of_mem Prod.fst (hab p hpmem))

theorem claim_C7_witness :
    ∃ tr, handleDeleteAllTxn [([97], [49])] = some (1, [], tr) ∧
      (∀ e ∈ tr, e.1.length ≤ 200) ∧
      (∀ e ∈ tr, ∀ k ∈ e.1, k ∉ keysOf e.2) ∧
      tr.Pairwise (fun a b => ∀ k ∈ a.1, k ∉ keysOf b.2) :=
  claim_C7_txn_sweep_bounded_chunks [([97], [49])] (by decide) (by decide)

end TikvAdmin
